import Mathlib

/-!
Verification of `servo_motor_positioning.py`: a shallow embedding of the
guitar-fretting servo geometry calculations (fret distances, string
frequencies, the two-link linkage solver and the nearest-fret matcher),
together with theorems settling the specified properties.

Python floats are modelled by `ℝ`; `np.arcsin` returning NaN outside
`[-1, 1]` (a domain error) is modelled by `Option ℝ` with `none` for the
out-of-domain case.  Python's builtin `min(iterable, key=...)`, which
raises `ValueError` on an empty iterable, is modelled by an `Option`-valued
left fold that keeps the first element attaining the minimal key.
-/

namespace ServoPositioning

/-- Degrees to radians, `np.deg2rad`. -/
noncomputable def deg2rad (x : ℝ) : ℝ := x * Real.pi / 180

/-- Radians to degrees, `np.rad2deg`. -/
noncomputable def rad2deg (x : ℝ) : ℝ := x * 180 / Real.pi

/-- Embedding of `np.arcsin`: defined on `[-1, 1]`; outside that interval the
NumPy function signals a domain error by returning NaN, modelled here as `none`. -/
noncomputable def arcsinChecked (x : ℝ) : Option ℝ :=
  if -1 ≤ x ∧ x ≤ 1 then some (Real.arcsin x) else none

/-- Source `calculate_cent_difference(f1, f2)`:
`1200 * np.log2(f1 / f2 if f1 > f2 else f2 / f1)`. -/
noncomputable def calculate_cent_difference (f1 f2 : ℝ) : ℝ :=
  1200 * Real.logb 2 (if f1 > f2 then f1 / f2 else f2 / f1)

/-- Source `get_micros_as_degree(micros, precision=10.0, max_degrees=180.0)`:
`max_degrees * micros / max_degrees / precision if micros > 0 else 0.0`. -/
noncomputable def get_micros_as_degree (micros precision max_degrees : ℝ) : ℝ :=
  if micros > 0 then max_degrees * micros / max_degrees / precision else 0.0

/-- Source `calculate_alpha(a, b, beta)`:
`np.rad2deg(np.arcsin((a * np.sin(np.deg2rad(beta))) / b))`; `none` models
the NaN produced when the arcsine argument is outside `[-1, 1]`. -/
noncomputable def calculate_alpha (a b beta : ℝ) : Option ℝ :=
  (arcsinChecked ((a * Real.sin (deg2rad beta)) / b)).map rad2deg

/-- A servo sample point `[f, c, alpha, beta, gamma, deviations]` as built
in the main loop of the script.  The type of the numeric entries is left as
a parameter so that the purely order-theoretic matcher stays executable. -/
structure SamplePoint (R : Type) where
  f : R
  c : R
  alpha : R
  beta : R
  gamma : R
  dev : List R

/-- Python's builtin `min(iterable, key=k)`: scans left to right keeping
the current best and replacing it only on a strictly smaller key, so the
first element attaining the minimum wins; on an empty iterable `min`
raises `ValueError`, modelled as `none`. -/
def pythonMin {A B : Type} [LinearOrder B] (k : A → B) : List A → Option A
  | [] => none
  | x :: xs => some (xs.foldl (fun best t => if k t < k best then t else best) x)

/-- Source `find_nearest_fret_points(points, frets)`:
`[[i, min(points, key=lambda t: abs(t[5][i]))] for i, f in enumerate(frets)]`.
Each entry pairs the fret index with the `min` result (`none` when `points`
is empty, where Python raises). -/
def find_nearest_fret_points {R : Type} [LinearOrderedField R]
    (points : List (SamplePoint R)) (frets : List R) : List (ℕ × Option (SamplePoint R)) :=
  (List.range frets.length).map
    (fun i => (i, pythonMin (fun t => |t.dev.getD i 0|) points))

/-- Source `half_step_factor = 2 ** (1 / 12)`, the equal-tempered semitone ratio. -/
noncomputable def half_step_factor : ℝ := (2 : ℝ) ^ ((1 : ℝ) / 12)

/-- The fret-distance list
`[(mensur - (mensur / (half_step_factor ** f))) for f in range(1, max_frets + 1)]`
for an arbitrary scale length `L` and fret count `N`. -/
noncomputable def fretDistances (L : ℝ) (N : ℕ) : List ℝ :=
  (List.range N).map (fun k => L - L / half_step_factor ^ (k + 1))

/-- Source `mensur = 648.00` (mm). -/
def mensur : ℝ := 648.00

/-- Source `max_frets = 13`. -/
def max_frets : ℕ := 13

/-- The script's fret list: `fretDistances` at the hard-coded constants. -/
noncomputable def frets : List ℝ := fretDistances mensur max_frets

/-- Source `frequencies = [82.41, 110.0, 146.83, 196.0, 246.94, 329.63]` (Hz). -/
def frequencies : List ℝ := [82.41, 110.0, 146.83, 196.0, 246.94, 329.63]

/-- Source `wave_lengths = [(mensur - f) / 1000.0 * 2 for f in frets]` (m). -/
noncomputable def wave_lengths : List ℝ := frets.map (fun f => (mensur - f) / 1000.0 * 2)

/-- Source `wave_speeds = [mensur / 1000.0 * 2 * fq for fq in frequencies]`. -/
noncomputable def wave_speeds : List ℝ := frequencies.map (fun fq => mensur / 1000.0 * 2 * fq)

/-- Source `fret_frequencies`: for each string `i`,
`[frequencies[i]] + [wave_speeds[i] / wl for wl in wave_lengths]`. -/
noncomputable def fret_frequencies : List (List ℝ) :=
  (List.range wave_speeds.length).map
    (fun i => frequencies.getD i 0 :: wave_lengths.map (fun wl => wave_speeds.getD i 0 / wl))

/-- Source `a = 206.10` (mm), the first servo arm length. -/
def a : ℝ := 206.10

/-- Source `b = 275.32` (mm), the second servo arm length. -/
def b : ℝ := 275.32

/-- Source `e = 36.38` (mm), the fixed offset. -/
def e : ℝ := 36.38

/-- Source `f_offset = 50.00` (mm), the baseline offset. -/
def f_offset : ℝ := 50.00

/-- Source `servo_min_micros = 600`. -/
def servo_min_micros : ℕ := 600

/-- Source `servo_max_micros = 2400`. -/
def servo_max_micros : ℕ := 2400

/-- Source `servo_max_degrees = 180.0`. -/
def servo_max_degrees : ℝ := 180.0

/-- Source `servo_micro_seconds = servo_max_micros - servo_min_micros`
(an integer subtraction, `1800`). -/
def servo_micro_seconds : ℕ := servo_max_micros - servo_min_micros

/-- Source `servo_precision = servo_micro_seconds / servo_max_degrees`
(a float division, `10.0`). -/
noncomputable def servo_precision : ℝ := (servo_micro_seconds : ℝ) / servo_max_degrees

/-- Python's `range(0, stop, step)` for positive `step`: the multiples of
`step` below `stop`, in increasing order. -/
def pythonRange (stop step : ℕ) : List ℕ := List.range' 0 ((stop + step - 1) / step) step

/-- Source `int(servo_precision)`: `servo_precision` is the float `10.0`,
truncated by `int` to `10` (established by `servo_precision_eq_ten` below). -/
def int_servo_precision : ℕ := 10

/-- The pulse widths visited by the main loop:
`range(0, int(servo_micro_seconds + 1), int(servo_precision))`. -/
def sample_micros : List ℕ := pythonRange (servo_micro_seconds + 1) int_servo_precision

/-- One iteration of the main loop at pulse width `ms`: converts the pulse
width to the angle `beta` (with the default `precision=10.0` and
`max_degrees=180.0`), solves the linkage by the law of sines, the triangle
angle sum, the law of cosines and the Pythagorean relation, and records the
per-fret deviations.  The `Option` propagates the NaN of a domain error in
`calculate_alpha`. -/
noncomputable def samplePointAt (ms : ℝ) : Option (SamplePoint ℝ) :=
  let beta := get_micros_as_degree ms 10.0 180.0
  (calculate_alpha a b beta).map (fun alpha =>
    let gamma := 180.0 - alpha - beta
    let c := (a ^ 2 + b ^ 2 - 2 * a * b * Real.cos (deg2rad gamma)) ^ ((1 : ℝ) / 2)
    let f := (c ^ 2 - e ^ 2) ^ ((1 : ℝ) / 2) - f_offset
    SamplePoint.mk f c alpha beta gamma (frets.map (fun fr => f - fr)))

/-- The sample set `points` built by the main loop, one entry per sampled
pulse width. -/
noncomputable def points : List (Option (SamplePoint ℝ)) :=
  sample_micros.map (fun ms : ℕ => samplePointAt (ms : ℝ))

/-- A throwaway default sample point, used only as the default value of
`Option.getD` in statements about elements already known to be `some`. -/
def dummyPoint : SamplePoint ℝ := ⟨0, 0, 0, 0, 0, []⟩

/-- Modelled from the spec (Fret Matcher, tie-break rule): the first
element of the list attaining the minimal key; `none` on the empty list. -/
def specFirstMin {A B : Type} [LinearOrder B] (k : A → B) : List A → Option A
  | [] => none
  | x :: xs =>
    match specFirstMin k xs with
    | none => some x
    | some m => some (if k m < k x then m else x)

/-- Modelled from the spec (Fret Matcher): for each fret index `i`, in
fret order, the pair of `i` and the first sample attaining the minimal
absolute deviation `|dev[i]|` (ties resolved to the earliest sample in
scan order). -/
def specNearest {R : Type} [LinearOrderedField R]
    (points : List (SamplePoint R)) (frets : List R) : List (ℕ × Option (SamplePoint R)) :=
  (List.range frets.length).map
    (fun i => (i, specFirstMin (fun t => |t.dev.getD i 0|) points))

/-! Helper lemmas shared by the proofs. -/

lemma deg2rad_rad2deg (x : ℝ) : deg2rad (rad2deg x) = x := by
  unfold deg2rad rad2deg
  field_simp

lemma deg2rad_zero : deg2rad 0 = 0 := by
  unfold deg2rad; ring

lemma rad2deg_zero : rad2deg 0 = 0 := by
  unfold rad2deg
  simp

lemma deg2rad_ninety : deg2rad 90 = Real.pi / 2 := by
  unfold deg2rad; ring

lemma sin_deg2rad_ninety : Real.sin (deg2rad 90) = 1 := by
  rw [deg2rad_ninety, Real.sin_pi_div_two]

/-! Claim C3: the pulse-width-to-degree conversion. -/

/-- C3: for every `micros > 0`, `get_micros_as_degree` returns
`max_degrees * micros / max_degrees / precision` — effectively
`micros / precision`, since the division and multiplication by
`max_degrees` cancel — and for every `micros ≤ 0` it returns `0.0`. -/
theorem get_micros_as_degree_spec (micros precision max_degrees : ℝ) :
    (0 < micros →
      get_micros_as_degree micros precision max_degrees =
        max_degrees * micros / max_degrees / precision) ∧
    (0 < micros → max_degrees ≠ 0 →
      get_micros_as_degree micros precision max_degrees = micros / precision) ∧
    (micros ≤ 0 → get_micros_as_degree micros precision max_degrees = 0.0) := by
  refine ⟨fun h => ?_, fun h hm => ?_, fun h => ?_⟩
  · unfold get_micros_as_degree
    rw [if_pos h]
  · unfold get_micros_as_degree
    rw [if_pos h, mul_comm max_degrees micros, mul_div_assoc, div_self hm, mul_one]
  · unfold get_micros_as_degree
    rw [if_neg (not_lt.mpr h)]

/-- Witness for C3 at `micros = 5, precision = 10, max_degrees = 180` and
at the non-positive pulse width `-1`. -/
theorem get_micros_as_degree_spec_witness :
    get_micros_as_degree 5 10 180 = 180 * 5 / 180 / 10 ∧
    get_micros_as_degree 5 10 180 = 5 / 10 ∧
    get_micros_as_degree (-1) 10 180 = 0.0 :=
  ⟨(get_micros_as_degree_spec 5 10 180).1 (by norm_num),
   (get_micros_as_degree_spec 5 10 180).2.1 (by norm_num) (by norm_num),
   (get_micros_as_degree_spec (-1) 10 180).2.2 (by norm_num)⟩

/-! Claim C4: the cent-difference function. -/

/-- C4: `calculate_cent_difference` computes `1200 * log2(max/min)`; on
positive inputs it vanishes on equal frequencies, is symmetric, and is
non-negative. -/
theorem calculate_cent_difference_spec (f1 f2 : ℝ) (h1 : 0 < f1) (h2 : 0 < f2) :
    calculate_cent_difference f1 f2 = 1200 * Real.logb 2 (max f1 f2 / min f1 f2) ∧
    calculate_cent_difference f1 f1 = 0 ∧
    calculate_cent_difference f1 f2 = calculate_cent_difference f2 f1 ∧
    0 ≤ calculate_cent_difference f1 f2 := by
  have hmaxmin : calculate_cent_difference f1 f2 =
      1200 * Real.logb 2 (max f1 f2 / min f1 f2) := by
    unfold calculate_cent_difference
    rcases lt_trichotomy f1 f2 with h | h | h
    · rw [if_neg (not_lt.mpr h.le), max_eq_right h.le, min_eq_left h.le]
    · subst h
      rw [if_neg (lt_irrefl f1), max_self, min_self]
    · rw [if_pos h, max_eq_left h.le, min_eq_right h.le]
  refine ⟨hmaxmin, ?_, ?_, ?_⟩
  · unfold calculate_cent_difference
    rw [if_neg (lt_irrefl f1), div_self h1.ne', Real.logb_one, mul_zero]
  · unfold calculate_cent_difference
    rcases lt_trichotomy f1 f2 with h | h | h
    · rw [if_neg (not_lt.mpr h.le), if_pos h]
    · subst h; rfl
    · rw [if_pos h, if_neg (not_lt.mpr h.le)]
  · rw [hmaxmin]
    have hmin : 0 < min f1 f2 := lt_min h1 h2
    have h1le : (1 : ℝ) ≤ max f1 f2 / min f1 f2 := (one_le_div hmin).mpr min_le_max
    exact mul_nonneg (by norm_num) (Real.logb_nonneg one_lt_two h1le)

/-- Witness for C4 at the frequencies `1` and `2`. -/
theorem calculate_cent_difference_spec_witness :
    calculate_cent_difference 1 2 = 1200 * Real.logb 2 (max 1 2 / min 1 2) ∧
    calculate_cent_difference 1 1 = 0 ∧
    calculate_cent_difference 1 2 = calculate_cent_difference 2 1 ∧
    0 ≤ calculate_cent_difference 1 2 :=
  calculate_cent_difference_spec 1 2 one_pos two_pos

/-! Claim C2: the arcsine domain error propagates. -/

/-- C2: whenever the arcsine argument `(a * sin beta) / b` lies outside
`[-1, 1]`, `calculate_alpha` propagates the domain error (NumPy's NaN,
modelled as `none`) instead of clamping or returning an angle. -/
theorem calculate_alpha_domain_error (a b beta : ℝ)
    (h : a * Real.sin (deg2rad beta) / b < -1 ∨ 1 < a * Real.sin (deg2rad beta) / b) :
    calculate_alpha a b beta = none := by
  have hn : ¬(-1 ≤ a * Real.sin (deg2rad beta) / b ∧ a * Real.sin (deg2rad beta) / b ≤ 1) := by
    rcases h with h | h
    · exact fun hc => absurd hc.1 (not_le.mpr h)
    · exact fun hc => absurd hc.2 (not_le.mpr h)
  unfold calculate_alpha arcsinChecked
  rw [if_neg hn]
  rfl

/-- Witness for C2: at `a = 2, b = 1, beta = 90` the arcsine argument is
`2`, outside `[-1, 1]`, and the result is the propagated failure. -/
theorem calculate_alpha_domain_error_witness : calculate_alpha 2 1 90 = none :=
  calculate_alpha_domain_error 2 1 90
    (Or.inr (by rw [sin_deg2rad_ninety]; norm_num))

/-! Claim C5: the fret geometry generator. -/

lemma half_step_factor_pos : 0 < half_step_factor :=
  Real.rpow_pos_of_pos two_pos _

lemma one_lt_half_step_factor : 1 < half_step_factor := by
  have h := Real.rpow_lt_rpow_of_exponent_lt one_lt_two
    (show (0 : ℝ) < 1 / 12 by norm_num)
  rw [Real.rpow_zero] at h
  exact h

/-- C5: for any fret count `N ≥ 1` and scale length `L > 0`, the fret list
has `N` entries, entry `k` (fret number `k + 1`) is
`L - L / half_step_factor ^ (k + 1)`, the sequence is strictly increasing,
and every value lies in the open interval `(0, L)`. -/
theorem fretDistances_spec (L : ℝ) (N : ℕ) (hL : 0 < L) (_hN : 1 ≤ N) :
    (fretDistances L N).length = N ∧
    (∀ k, k < N → (fretDistances L N).getD k 0 = L - L / half_step_factor ^ (k + 1)) ∧
    (fretDistances L N).Pairwise (fun x y => x < y) ∧
    (∀ x ∈ fretDistances L N, 0 < x ∧ x < L) := by
  have hr := one_lt_half_step_factor
  have hrpos := half_step_factor_pos
  refine ⟨by simp [fretDistances], fun k hk => ?_, ?_, ?_⟩
  · have hk2 : k < ((List.range N).map
        (fun j => L - L / half_step_factor ^ (j + 1))).length := by simpa using hk
    rw [fretDistances, List.getD_eq_getElem _ _ hk2, List.getElem_map, List.getElem_range]
  · rw [fretDistances, List.pairwise_map]
    refine (List.pairwise_lt_range N).imp ?_
    intro i j hij
    have hpowlt : half_step_factor ^ (i + 1) < half_step_factor ^ (j + 1) :=
      pow_lt_pow_right₀ hr (by omega)
    have hppos : 0 < half_step_factor ^ (i + 1) := pow_pos hrpos _
    have hdiv : L / half_step_factor ^ (j + 1) < L / half_step_factor ^ (i + 1) :=
      div_lt_div_of_pos_left hL hppos hpowlt
    linarith
  · intro x hx
    rw [fretDistances, List.mem_map] at hx
    obtain ⟨k, hk, rfl⟩ := hx
    have hpow : 1 < half_step_factor ^ (k + 1) := one_lt_pow₀ hr k.succ_ne_zero
    have hpowpos : 0 < half_step_factor ^ (k + 1) := pow_pos hrpos _
    constructor
    · have hlt : L / half_step_factor ^ (k + 1) < L := div_lt_self hL hpow
      linarith
    · have hgt : 0 < L / half_step_factor ^ (k + 1) := div_pos hL hpowpos
      linarith

/-- Witness for C5 at `L = 2`, `N = 2`: the length, the second entry's
value, the strict ordering, and the bounds of the first entry. -/
theorem fretDistances_spec_witness :
    (fretDistances 2 2).length = 2 ∧
    (fretDistances 2 2).getD 1 0 = 2 - 2 / half_step_factor ^ (1 + 1) ∧
    (fretDistances 2 2).Pairwise (fun x y => x < y) ∧
    (0 < (fretDistances 2 2).getD 0 0 ∧ (fretDistances 2 2).getD 0 0 < 2) := by
  have h := fretDistances_spec 2 2 (by norm_num) (by norm_num)
  have hmem : (fretDistances 2 2).getD 0 0 ∈ fretDistances 2 2 := by
    rw [List.getD_eq_getElem _ _ (by rw [h.1]; norm_num)]
    exact List.getElem_mem _
  exact ⟨h.1, h.2.1 1 (by norm_num), h.2.2.1, h.2.2.2 _ hmem⟩

/-! Claims C1 and C6: the nearest-fret matcher. -/

lemma specFirstMin_ne_none {A B : Type} [LinearOrder B] (k : A → B) (x : A) (xs : List A) :
    specFirstMin k (x :: xs) ≠ none := by
  cases h : specFirstMin k xs <;> simp [specFirstMin, h]

/-- Folding one comparison step into the head of the list preserves
Python's `min`. -/
lemma pythonMin_cons_cons {A B : Type} [LinearOrder B] (k : A → B) (x t : A) (ts : List A) :
    pythonMin k (x :: t :: ts) = pythonMin k ((if k t < k x then t else x) :: ts) := by
  simp only [pythonMin, List.foldl_cons]

/-- Folding one comparison step into the head of the list preserves the
spec-modelled first minimum. -/
lemma specFirstMin_cons_cons {A B : Type} [LinearOrder B] (k : A → B) (x t : A) (ts : List A) :
    specFirstMin k (x :: t :: ts) = specFirstMin k ((if k t < k x then t else x) :: ts) := by
  cases hts : specFirstMin k ts with
  | none =>
    by_cases h : k t < k x <;> simp [specFirstMin, hts, h]
  | some m =>
    by_cases h1 : k m < k t
    · by_cases h2 : k t < k x
      · have h3 : k m < k x := h1.trans h2
        simp [specFirstMin, hts, h1, h2, h3]
      · simp [specFirstMin, hts, h1, h2]
    · by_cases h2 : k t < k x
      · simp [specFirstMin, hts, h1, h2]
      · have h3 : ¬ k m < k x := not_lt.mpr (le_trans (not_lt.mp h2) (not_lt.mp h1))
        simp [specFirstMin, hts, h1, h2, h3]

/-- Python's builtin `min` with a key agrees with the spec-modelled first
minimum on every list. -/
lemma pythonMin_eq_specFirstMin {A B : Type} [LinearOrder B] (k : A → B) :
    ∀ l : List A, pythonMin k l = specFirstMin k l := by
  have aux : ∀ (xs : List A) (x : A), pythonMin k (x :: xs) = specFirstMin k (x :: xs) := by
    intro xs
    induction xs with
    | nil => intro x; rfl
    | cons t ts ih =>
      intro x
      rw [pythonMin_cons_cons, specFirstMin_cons_cons]
      exact ih (if k t < k x then t else x)
  intro l
  cases l with
  | nil => rfl
  | cons x xs => exact aux xs x

/-- The spec-modelled first minimum of a non-empty list really is the
first element attaining the minimal key: the list splits into a prefix of
strictly larger keys, the returned element, and a suffix of keys no
smaller. -/
lemma specFirstMin_spec {A B : Type} [LinearOrder B] (k : A → B) :
    ∀ l : List A, l ≠ [] →
      ∃ l₁ m l₂, specFirstMin k l = some m ∧ l = l₁ ++ m :: l₂ ∧
        (∀ y ∈ l₁, k m < k y) ∧ (∀ y ∈ l, k m ≤ k y) := by
  intro l
  induction l with
  | nil => intro h; exact absurd rfl h
  | cons x xs ih =>
    intro _
    cases hxs : specFirstMin k xs with
    | none =>
      have hnil : xs = [] := by
        cases xs with
        | nil => rfl
        | cons y ys => exact absurd hxs (specFirstMin_ne_none k y ys)
      subst hnil
      refine ⟨[], x, [], by simp [specFirstMin], rfl, ?_, ?_⟩
      · intro y hy; cases hy
      · intro y hy
        rw [List.mem_singleton] at hy
        subst hy; exact le_refl _
    | some m =>
      have hne : xs ≠ [] := by
        rintro rfl
        simp [specFirstMin] at hxs
      obtain ⟨l₁, m', l₂, hm', hsplit, hpre, hall⟩ := ih hne
      have hmm : m' = m := Option.some.inj (hm' ▸ hxs ▸ rfl)
      subst hmm
      have hcons : specFirstMin k (x :: xs) = some (if k m' < k x then m' else x) := by
        simp [specFirstMin, hxs]
      by_cases h : k m' < k x
      · refine ⟨x :: l₁, m', l₂, by rw [hcons, if_pos h], by rw [hsplit]; rfl, ?_, ?_⟩
        · intro y hy
          rcases List.mem_cons.mp hy with rfl | hy
          · exact h
          · exact hpre y hy
        · intro y hy
          rcases List.mem_cons.mp hy with rfl | hy
          · exact h.le
          · exact hall y hy
      · refine ⟨[], x, xs, by rw [hcons, if_neg h], rfl, ?_, ?_⟩
        · intro y hy; cases hy
        · intro y hy
          rcases List.mem_cons.mp hy with rfl | hy
          · exact le_refl _
          · exact le_trans (not_lt.mp h) (hall y hy)

/-- C6: the matcher returns one `(index, best sample)` pair per fret, in
fret order, and equals the spec-modelled matcher: for each fret index the
chosen sample is the first one in scan order attaining the minimal
absolute deviation at that index (ties resolved to the earlier sample). -/
theorem find_nearest_fret_points_correct {R : Type} [LinearOrderedField R]
    (points : List (SamplePoint R)) (frets : List R) :
    find_nearest_fret_points points frets = specNearest points frets ∧
    (find_nearest_fret_points points frets).length = frets.length ∧
    ∀ i, i < frets.length →
      (find_nearest_fret_points points frets).getD i (0, none) =
        (i, specFirstMin (fun t => |t.dev.getD i 0|) points) := by
  have heq : find_nearest_fret_points points frets = specNearest points frets := by
    unfold find_nearest_fret_points specNearest
    congr 1
    funext i
    rw [pythonMin_eq_specFirstMin]
  refine ⟨heq, by simp [find_nearest_fret_points], fun i hi => ?_⟩
  have hlen : i < ((List.range frets.length).map
      (fun j => ((j : ℕ), pythonMin (fun t : SamplePoint R => |t.dev.getD j 0|) points))).length := by
    simpa using hi
  rw [find_nearest_fret_points, List.getD_eq_getElem _ _ hlen, List.getElem_map,
    List.getElem_range, pythonMin_eq_specFirstMin]

/-- Witness for C6 on a concrete two-sample, one-fret instance over `ℚ`:
the second sample has the smaller absolute deviation and is selected. -/
theorem find_nearest_fret_points_correct_witness :
    (find_nearest_fret_points
        [(⟨1, 0, 0, 0, 0, [3]⟩ : SamplePoint ℚ), ⟨2, 0, 0, 0, 0, [-1]⟩] [10]).getD 0 (0, none) =
      (0, specFirstMin (fun t : SamplePoint ℚ => |t.dev.getD 0 0|)
        [⟨1, 0, 0, 0, 0, [3]⟩, ⟨2, 0, 0, 0, 0, [-1]⟩]) :=
  (find_nearest_fret_points_correct
    [(⟨1, 0, 0, 0, 0, [3]⟩ : SamplePoint ℚ), ⟨2, 0, 0, 0, 0, [-1]⟩] [10]).2.2 0 (by norm_num)

/-- C1 counterexample: on the empty sample set and the non-empty fret list
`[36]` the matcher does not return an empty match list; its single entry
carries the failure value `none` of Python's `min` on an empty sequence. -/
theorem find_nearest_fret_points_empty_counterexample :
    find_nearest_fret_points ([] : List (SamplePoint ℚ)) [36] = [(0, none)] ∧
    find_nearest_fret_points ([] : List (SamplePoint ℚ)) [36] ≠ [] := by
  have h1 : find_nearest_fret_points ([] : List (SamplePoint ℚ)) [36] = [(0, none)] := rfl
  exact ⟨h1, by rw [h1]; simp⟩

/-- C1 amended: on an empty sample set the matcher returns one entry per
fret, each carrying the failure value `none` (Python's `min` raises
`ValueError` on an empty sequence), so the match list is empty only when
the fret list itself is empty. -/
theorem find_nearest_fret_points_empty_points {R : Type} [LinearOrderedField R]
    (frets : List R) :
    find_nearest_fret_points ([] : List (SamplePoint R)) frets =
      (List.range frets.length).map (fun i => (i, (none : Option (SamplePoint R)))) ∧
    (find_nearest_fret_points ([] : List (SamplePoint R)) frets = [] ↔ frets = []) := by
  constructor
  · unfold find_nearest_fret_points
    simp [pythonMin]
  · constructor
    · intro h
      unfold find_nearest_fret_points at h
      simpa using h
    · rintro rfl
      rfl

/-- Witness for C1 (amended) on the concrete two-fret list `[36, 40]`
over `ℚ`. -/
theorem find_nearest_fret_points_empty_points_witness :
    find_nearest_fret_points ([] : List (SamplePoint ℚ)) [(36 : ℚ), 40] =
      (List.range ([(36 : ℚ), 40].length)).map
        (fun i => (i, (none : Option (SamplePoint ℚ)))) ∧
    (find_nearest_fret_points ([] : List (SamplePoint ℚ)) [(36 : ℚ), 40] = [] ↔
      [(36 : ℚ), 40] = ([] : List ℚ)) :=
  find_nearest_fret_points_empty_points [(36 : ℚ), 40]

/-! Claim C7: the law of sines for `calculate_alpha`. -/

/-- C7 counterexample: at `a = 0, b = 1, beta = 90` the claim's hypotheses
hold (`sin beta = 1 ≠ 0`, arcsine argument `0` in `[-1, 1]`), the returned
angle is `0`, yet `a / sin(alpha) = 0 / 0 = 0` differs from
`b / sin(beta) = 1`: the ratio form of the law of sines fails for a
degenerate zero-length arm. -/
theorem calculate_alpha_law_counterexample :
    Real.sin (deg2rad 90) ≠ 0 ∧
    -1 ≤ (0 : ℝ) * Real.sin (deg2rad 90) / 1 ∧
    (0 : ℝ) * Real.sin (deg2rad 90) / 1 ≤ 1 ∧
    calculate_alpha 0 1 90 = some 0 ∧
    (0 : ℝ) / Real.sin (deg2rad ((calculate_alpha 0 1 90).getD 0)) ≠
      1 / Real.sin (deg2rad 90) := by
  have hca : calculate_alpha 0 1 90 = some 0 := by
    unfold calculate_alpha arcsinChecked
    norm_num [Real.arcsin_zero, rad2deg_zero]
  refine ⟨by rw [sin_deg2rad_ninety]; norm_num,
    by rw [sin_deg2rad_ninety]; norm_num,
    by rw [sin_deg2rad_ninety]; norm_num, hca, ?_⟩
  rw [hca, sin_deg2rad_ninety]
  show (0 : ℝ) / Real.sin (deg2rad 0) ≠ 1 / 1
  rw [deg2rad_zero, Real.sin_zero]
  norm_num

/-- C7 amended: for a nonzero arm length `a`, whenever `sin beta ≠ 0` and
the arcsine argument lies in `[-1, 1]`, `calculate_alpha` succeeds and its
result satisfies the law of sines `a / sin(alpha) = b / sin(beta)` exactly
in real arithmetic (angles in degrees); moreover at the script's arm
lengths with `beta = 0` the result is the angle `0`. -/
theorem calculate_alpha_law_of_sines (a b beta : ℝ) (ha : a ≠ 0)
    (hs : Real.sin (deg2rad beta) ≠ 0)
    (hlo : -1 ≤ a * Real.sin (deg2rad beta) / b)
    (hhi : a * Real.sin (deg2rad beta) / b ≤ 1) :
    (calculate_alpha a b beta).isSome = true ∧
    a / Real.sin (deg2rad ((calculate_alpha a b beta).getD 0)) =
      b / Real.sin (deg2rad beta) ∧
    calculate_alpha 206.10 275.32 0 = some 0 := by
  have hca : calculate_alpha a b beta =
      some (rad2deg (Real.arcsin (a * Real.sin (deg2rad beta) / b))) := by
    unfold calculate_alpha arcsinChecked
    rw [if_pos ⟨hlo, hhi⟩]
    rfl
  have hsina : Real.sin (deg2rad ((calculate_alpha a b beta).getD 0)) =
      a * Real.sin (deg2rad beta) / b := by
    rw [hca]
    show Real.sin (deg2rad (rad2deg _)) = _
    rw [deg2rad_rad2deg, Real.sin_arcsin hlo hhi]
  refine ⟨by rw [hca]; rfl, ?_, ?_⟩
  · rw [hsina]
    rcases eq_or_ne b 0 with rfl | hb
    · simp
    · have hX : a * Real.sin (deg2rad beta) / b ≠ 0 :=
        div_ne_zero (mul_ne_zero ha hs) hb
      rw [div_eq_div_iff hX hs]
      field_simp
  · unfold calculate_alpha arcsinChecked
    norm_num [deg2rad_zero, Real.sin_zero, Real.arcsin_zero, rad2deg_zero]

/-- Witness for C7 (amended) at `a = 1, b = 2, beta = 90`, where the
arcsine argument is `1/2`. -/
theorem calculate_alpha_law_of_sines_witness :
    (calculate_alpha 1 2 90).isSome = true ∧
    (1 : ℝ) / Real.sin (deg2rad ((calculate_alpha 1 2 90).getD 0)) =
      2 / Real.sin (deg2rad 90) ∧
    calculate_alpha 206.10 275.32 0 = some 0 :=
  calculate_alpha_law_of_sines 1 2 90 (by norm_num)
    (by rw [sin_deg2rad_ninety]; norm_num)
    (by rw [sin_deg2rad_ninety]; norm_num)
    (by rw [sin_deg2rad_ninety]; norm_num)

/-! Claim C9: the sampling of the servo's pulse-width range. -/

lemma servo_precision_eq_ten : servo_precision = 10 := by
  unfold servo_precision servo_micro_seconds servo_max_micros servo_min_micros servo_max_degrees
  norm_num

lemma sample_micros_eq : sample_micros = List.range' 0 181 10 := rfl

/-- C9: the per-degree precision is `(2400 - 600) / 180 = 10` microseconds,
the loop visits every pulse-width step from `0` to
`servo_micro_seconds = 1800` inclusive in steps of `10`, and the sample
set has exactly `181 = max_degrees + 1` elements. -/
theorem servo_sampling_spec :
    servo_precision = ((servo_max_micros : ℝ) - (servo_min_micros : ℝ)) / servo_max_degrees ∧
    servo_precision = 10 ∧
    (∀ m : ℕ, m ∈ sample_micros ↔ m ≤ servo_micro_seconds ∧ 10 ∣ m) ∧
    sample_micros.length = 181 ∧
    points.length = 181 ∧
    (181 : ℝ) = servo_max_degrees + 1 := by
  have hsm : servo_micro_seconds = 1800 := rfl
  refine ⟨?_, servo_precision_eq_ten, ?_, ?_, ?_, ?_⟩
  · unfold servo_precision servo_micro_seconds servo_max_micros servo_min_micros
    norm_num
  · intro m
    rw [sample_micros_eq, hsm, List.mem_range']
    constructor
    · rintro ⟨i, hi, rfl⟩
      exact ⟨by omega, ⟨i, by omega⟩⟩
    · rintro ⟨hle, j, rfl⟩
      exact ⟨j, by omega, by omega⟩
  · rw [sample_micros_eq, List.length_range']
  · unfold points
    rw [List.length_map, sample_micros_eq, List.length_range']
  · unfold servo_max_degrees
    norm_num

/-! Claim C8: invariants of every generated sample point. -/

/-- At the script's arm lengths `a = 206.10 < b = 275.32`, the arcsine
argument always lies in `[-1, 1]`, whatever the angle `beta`. -/
lemma arcsine_arg_in_range (beta : ℝ) :
    -1 ≤ a * Real.sin (deg2rad beta) / b ∧ a * Real.sin (deg2rad beta) / b ≤ 1 := by
  have h1 := Real.neg_one_le_sin (deg2rad beta)
  have h2 := Real.sin_le_one (deg2rad beta)
  unfold a b
  constructor
  · rw [le_div_iff₀ (by norm_num : (0 : ℝ) < 275.32)]
    nlinarith
  · rw [div_le_iff₀ (by norm_num : (0 : ℝ) < 275.32)]
    nlinarith

/-- At the script's arm lengths no arcsine domain error occurs. -/
lemma calculate_alpha_ab_eq (beta : ℝ) :
    calculate_alpha a b beta =
      some (rad2deg (Real.arcsin (a * Real.sin (deg2rad beta) / b))) := by
  obtain ⟨h1, h2⟩ := arcsine_arg_in_range beta
  unfold calculate_alpha arcsinChecked
  rw [if_pos ⟨h1, h2⟩]
  rfl

/-- Every iteration of the main loop produces an actual sample point whose
angles sum to `180` and whose deviation vector is `f` minus each fret. -/
lemma samplePointAt_eq (x : ℝ) :
    ∃ p, samplePointAt x = some p ∧ p.alpha + p.beta + p.gamma = 180 ∧
      p.dev = frets.map (fun fr => p.f - fr) := by
  simp only [samplePointAt, calculate_alpha_ab_eq, Option.map_some']
  refine ⟨_, rfl, ?_, ?_⟩
  · dsimp only
    ring_nf
  · dsimp only

/-- C8: every sample point generated by the main loop exists (no arcsine
domain error occurs at the script's arm lengths), satisfies the triangle
angle sum `alpha + beta + gamma = 180` exactly, and carries the deviation
vector `[f - fr for fr in frets]`. -/
theorem points_invariants (op : Option (SamplePoint ℝ)) (hop : op ∈ points) :
    op.isSome = true ∧
    (op.getD dummyPoint).alpha + (op.getD dummyPoint).beta +
      (op.getD dummyPoint).gamma = 180 ∧
    (op.getD dummyPoint).dev =
      frets.map (fun fr => (op.getD dummyPoint).f - fr) := by
  unfold points at hop
  rw [List.mem_map] at hop
  obtain ⟨ms, _, rfl⟩ := hop
  obtain ⟨p, hp, hsum, hdev⟩ := samplePointAt_eq (ms : ℝ)
  rw [hp]
  exact ⟨rfl, by simpa using hsum, by simpa using hdev⟩

/-- Witness for C8 at the first sampled pulse width, `ms = 0`. -/
theorem points_invariants_witness :
    (samplePointAt ((0 : ℕ) : ℝ)).isSome = true ∧
    ((samplePointAt ((0 : ℕ) : ℝ)).getD dummyPoint).alpha +
      ((samplePointAt ((0 : ℕ) : ℝ)).getD dummyPoint).beta +
      ((samplePointAt ((0 : ℕ) : ℝ)).getD dummyPoint).gamma = 180 ∧
    ((samplePointAt ((0 : ℕ) : ℝ)).getD dummyPoint).dev =
      frets.map (fun fr => ((samplePointAt ((0 : ℕ) : ℝ)).getD dummyPoint).f - fr) :=
  points_invariants (samplePointAt ((0 : ℕ) : ℝ))
    (List.mem_map_of_mem _ (by decide))

/-! Claim C10: the fret-frequency table. -/

lemma getD_map_of_lt {A B : Type} (g : A → B) (l : List A) (i : ℕ)
    (h : i < l.length) (d : B) (d' : A) :
    (l.map g).getD i d = g (l.getD i d') := by
  rw [List.getD_eq_getElem _ _ (by simpa using h), List.getD_eq_getElem _ _ h,
    List.getElem_map]

lemma frets_length : frets.length = 13 := by
  simp [frets, fretDistances, max_frets]

lemma frets_getD (j : ℕ) (hj : j < 13) :
    frets.getD j 0 = mensur - mensur / half_step_factor ^ (j + 1) := by
  unfold frets fretDistances
  rw [List.getD_eq_getElem _ _ (by simpa [max_frets] using hj), List.getElem_map,
    List.getElem_range]

lemma half_step_factor_pow (n : ℕ) :
    half_step_factor ^ n = (2 : ℝ) ^ ((n : ℝ) / 12) := by
  unfold half_step_factor
  rw [← Real.rpow_natCast ((2 : ℝ) ^ ((1 : ℝ) / 12)) n,
    ← Real.rpow_mul (by norm_num : (0 : ℝ) ≤ 2)]
  congr 1
  ring

/-- C10: each row `i` of the fret-frequency table starts with the open
string frequency, and its entry for fret `f` (for `f = 1 .. 13`) is the
open frequency scaled by the `f`-th power of the semitone ratio,
`frequencies[i] * 2 ^ (f / 12)`, exactly in real arithmetic: the
wave-speed over wave-length construction collapses to that product. -/
theorem fret_frequencies_spec (i : ℕ) (hi : i < frequencies.length) :
    (fret_frequencies.getD i []).getD 0 0 = frequencies.getD i 0 ∧
    ∀ f : ℕ, 1 ≤ f → f ≤ max_frets →
      (fret_frequencies.getD i []).getD f 0 =
        frequencies.getD i 0 * (2 : ℝ) ^ ((f : ℝ) / 12) := by
  have hwsl : wave_speeds.length = frequencies.length := by
    simp [wave_speeds]
  have hi2 : i < (List.range wave_speeds.length).length := by
    simpa [hwsl] using hi
  have hidx : (List.range wave_speeds.length).getD i 0 = i := by
    rw [List.getD_eq_getElem _ _ hi2, List.getElem_range]
  have hrow : fret_frequencies.getD i [] =
      frequencies.getD i 0 :: wave_lengths.map (fun wl => wave_speeds.getD i 0 / wl) := by
    unfold fret_frequencies
    rw [getD_map_of_lt _ _ _ hi2 _ 0, hidx]
  have hws : wave_speeds.getD i 0 = mensur / 1000.0 * 2 * frequencies.getD i 0 := by
    unfold wave_speeds
    exact getD_map_of_lt _ _ _ hi _ 0
  have hfl : frets.length = 13 := frets_length
  refine ⟨by rw [hrow]; rfl, ?_⟩
  intro f h1 h13
  rw [max_frets] at h13
  obtain ⟨j, rfl⟩ : ∃ j, f = j + 1 := ⟨f - 1, by omega⟩
  have hjf : j < frets.length := by omega
  have hwll : j < wave_lengths.length := by
    simp only [wave_lengths, List.length_map]
    omega
  rw [hrow, List.getD_cons_succ, getD_map_of_lt _ _ _ hwll _ 0]
  have hwl : wave_lengths.getD j 0 = (mensur - frets.getD j 0) / 1000.0 * 2 := by
    unfold wave_lengths
    exact getD_map_of_lt _ _ _ hjf _ 0
  rw [hwl, frets_getD j (by omega), hws]
  have hX : (0 : ℝ) < half_step_factor ^ (j + 1) := pow_pos half_step_factor_pos _
  have hm : mensur ≠ 0 := by unfold mensur; norm_num
  rw [← half_step_factor_pow (j + 1)]
  have hsub : mensur - (mensur - mensur / half_step_factor ^ (j + 1)) =
      mensur / half_step_factor ^ (j + 1) := by ring
  rw [hsub]
  field_simp
  ring

/-- Witness for C10 at the low-E string (`i = 0`) and the octave fret
(`f = 12`). -/
theorem fret_frequencies_spec_witness :
    (fret_frequencies.getD 0 []).getD 0 0 = frequencies.getD 0 0 ∧
    (fret_frequencies.getD 0 []).getD 12 0 =
      frequencies.getD 0 0 * (2 : ℝ) ^ (((12 : ℕ) : ℝ) / 12) :=
  ⟨(fret_frequencies_spec 0 (by simp [frequencies])).1,
   (fret_frequencies_spec 0 (by simp [frequencies])).2 12 (by norm_num) (by decide)⟩

end ServoPositioning
